import Mathlib

/-!
Shallow embedding of the swimcheck validation scripts
(`.github/scripts/validate-time-format.js`, `validate-time-progression.js`,
`update-readme-inconsistencies.js`).

Strings are modelled as lists of an abstract character type `Ch`; the warning
emoji (a fixed substring in the JavaScript) is modelled as the single token
`Ch.warn`.  JavaScript `null`/absent values are modelled by `Option`; the
JavaScript falsiness test `!s` on a string-or-null value holds for `none` and
for the empty string.
-/

/-- Characters of the modelled strings: decimal digits, the three structural
characters used by the time regexes and the age-range regex, the warning
marker (standing for the warning emoji), and any other character identified
by a numeric code. -/
inductive Ch where
  | digit : Fin 10 → Ch
  | colon : Ch
  | dot : Ch
  | hyphen : Ch
  | warn : Ch
  | other : Nat → Ch
deriving DecidableEq, Repr

/-- A modelled JavaScript string. -/
abbrev Str := List Ch

/-- An injective character code, used to model lexicographic string
comparison (`String.prototype.localeCompare` restricted to a fixed total
character order).  Codes of the named characters follow ASCII; `other`
codes are shifted into a disjoint region to keep the map injective. -/
def chCode : Ch → Nat
  | .digit d => 48 + d.val
  | .colon => 58
  | .dot => 46
  | .hyphen => 45
  | .warn => 9888
  | .other n => 10000 + n

/-- The JavaScript falsiness test `!s` for a string-or-null value. -/
def jsFalsy : Option Str → Bool
  | none => true
  | some s => s.isEmpty

/-- Whether a string contains the warning marker
(`timeStr.includes(WARNING_EMOJI)`). -/
def containsWarn (s : Str) : Bool := s.contains Ch.warn

/-- Remove the first occurrence of the warning marker
(`timeStr.replace(WARNING_EMOJI, "")`). -/
def removeFirstWarn : Str → Str
  | [] => []
  | c :: cs => if c = Ch.warn then cs else c :: removeFirstWarn cs

/-- `stripWarning` from both validator scripts: pass falsy input through
unchanged, otherwise remove the first occurrence of the marker. -/
def stripWarning (v : Option Str) : Option Str :=
  if jsFalsy v then v else v.map removeFirstWarn

/-- Whether a character is a decimal digit. -/
def isDigitCh : Ch → Bool
  | .digit _ => true
  | _ => false

/-- Split a string into its maximal leading run of digits and the rest. -/
def takeDigits : Str → List (Fin 10) × Str
  | [] => ([], [])
  | c :: cs =>
    match c with
    | .digit d => let (ds, r) := takeDigits cs; (d :: ds, r)
    | _ => ([], c :: cs)

/-- Numeric value of a digit run (`parseInt` on a digit string). -/
def digitsToNat (ds : List (Fin 10)) : Nat :=
  ds.foldl (fun acc d => 10 * acc + d.val) 0

/-- Match the anchored regex for the minutes form
`(one or more digits) colon (two digits) dot (two digits)`,
returning `(minutes, seconds, centiseconds)`. -/
def matchWithMinutes (s : Str) : Option (Nat × Nat × Nat) :=
  match takeDigits s with
  | ([], _) => none
  | (mds, rest) =>
    match rest with
    | Ch.colon :: Ch.digit s1 :: Ch.digit s2 :: Ch.dot :: Ch.digit c1 :: Ch.digit c2 :: [] =>
      some (digitsToNat mds, 10 * s1.val + s2.val, 10 * c1.val + c2.val)
    | _ => none

/-- Match the anchored regex for the no-minutes form
`(one or two digits) dot (two digits)`, returning `(seconds, centiseconds)`. -/
def matchNoMinutes (s : Str) : Option (Nat × Nat) :=
  match s with
  | Ch.digit s1 :: Ch.dot :: Ch.digit c1 :: Ch.digit c2 :: [] =>
    some (s1.val, 10 * c1.val + c2.val)
  | Ch.digit s1 :: Ch.digit s2 :: Ch.dot :: Ch.digit c1 :: Ch.digit c2 :: [] =>
    some (10 * s1.val + s2.val, 10 * c1.val + c2.val)
  | _ => none

/-- `timeTocentiseconds` from `validate-time-progression.js`: falsy input
gives `none`; otherwise strip the marker and try the minutes form, then the
no-minutes form; unmatched strings give `none`.  There is no range check on
the seconds component here. -/
def timeTocentiseconds (v : Option Str) : Option Nat :=
  if jsFalsy v then none
  else
    let clean := removeFirstWarn (v.getD [])
    match matchWithMinutes clean with
    | some (m, ss, cc) => some (m * 60 * 100 + ss * 100 + cc)
    | none =>
      match matchNoMinutes clean with
      | some (ss, cc) => some (ss * 100 + cc)
      | none => none

/-- The two issue description strings produced by the validators:
`invalidFormat` stands for the string "Invalid format" and
`invalidProgression` for "Invalid progression". -/
inductive IssueText where
  | invalidFormat : IssueText
  | invalidProgression : IssueText
deriving DecidableEq, Repr

/-- Result record of the `validate*` helper functions. -/
structure ValidationResult where
  valid : Bool
  issue : Option IssueText
deriving DecidableEq, Repr

/-- `validateTimeFormat` from `validate-time-format.js`: falsy values are
valid; otherwise the marker is stripped and the two regex forms are tried,
with a seconds-component range check (and an unreachable centiseconds
check) on each. -/
def validateTimeFormat (v : Option Str) : ValidationResult :=
  if jsFalsy v then ⟨true, none⟩
  else
    let clean := removeFirstWarn (v.getD [])
    match matchWithMinutes clean with
    | some (_, ss, cc) =>
      if ss ≥ 60 then ⟨false, some .invalidFormat⟩
      else if cc ≥ 100 then ⟨false, some .invalidFormat⟩
      else ⟨true, none⟩
    | none =>
      match matchNoMinutes clean with
      | some (ss, cc) =>
        if ss ≥ 60 then ⟨false, some .invalidFormat⟩
        else if cc ≥ 100 then ⟨false, some .invalidFormat⟩
        else ⟨true, none⟩
      | none => ⟨false, some .invalidFormat⟩

/-- `validateProgression` from `validate-time-progression.js`: if any of the
three times is null or unparseable the check is skipped (reported valid);
otherwise the progression A < B+ < B in centiseconds is required. -/
def validateProgression (timeA timeBPlus timeB : Option Str) : ValidationResult :=
  match timeTocentiseconds timeA, timeTocentiseconds timeBPlus, timeTocentiseconds timeB with
  | some csA, some csBPlus, some csB =>
    if csA ≥ csBPlus then ⟨false, some .invalidProgression⟩
    else if csBPlus ≥ csB then ⟨false, some .invalidProgression⟩
    else ⟨true, none⟩
  | _, _, _ => ⟨true, none⟩

/-- Gender keys of the `genders` object. -/
inductive Gender where
  | Girls : Gender
  | Boys : Gender
deriving DecidableEq, Repr

/-- Course keys of an event (`SCY`, `SCM`, `LCM`). -/
inductive Course where
  | SCY : Course
  | SCM : Course
  | LCM : Course
deriving DecidableEq, Repr

/-- Standard (tier) keys of a course record (`A`, `B+`, `B`). -/
inductive Standard where
  | A : Standard
  | BPlus : Standard
  | B : Standard
deriving DecidableEq, Repr

/-- The three time slots of one course record.  `none` models JSON `null`
(or an absent key). -/
structure CourseTimes where
  A : Option Str
  BPlus : Option Str
  B : Option Str
deriving DecidableEq, Repr

/-- One event: display name plus up to three course records. -/
structure Event where
  name : Str
  SCY : Option CourseTimes
  SCM : Option CourseTimes
  LCM : Option CourseTimes
deriving DecidableEq, Repr

/-- One gender bucket: its `events` field (which the scripts check for
presence before iterating). -/
structure GenderBucket where
  events : Option (List Event)
deriving DecidableEq, Repr

/-- The `genders` object of one age group. -/
structure Genders where
  Girls : Option GenderBucket
  Boys : Option GenderBucket
deriving DecidableEq, Repr

/-- One age group: its free-form age label plus the `genders` object. -/
structure AgeGroup where
  age : Str
  genders : Option Genders
deriving DecidableEq, Repr

/-- The input document as seen by the validators: only its `ageGroups`
field is read; `none` models a document whose `ageGroups` is missing or
not an array. -/
structure StandardsDocument where
  ageGroups : Option (List AgeGroup)
deriving DecidableEq, Repr

/-- Issue record pushed by both validators. -/
structure Issue where
  age : Str
  gender : Gender
  event : Str
  course : Course
  standard : Standard
  value : Option Str
  issue : IssueText
deriving DecidableEq, Repr

/-- The error thrown by `processTimeStandards` when `data.ageGroups` is
missing or not an array. -/
inductive StructuralError where
  | ageGroupsNotFound : StructuralError
deriving DecidableEq, Repr

/-- The guarded marker append used by the progression validator:
`if (t && !t.includes(WARNING_EMOJI)) t = t + WARNING_EMOJI`. -/
def appendWarnGuard (v : Option Str) : Option Str :=
  match v with
  | none => none
  | some s => if s.isEmpty then some s
              else if containsWarn s then some s
              else some (s ++ [Ch.warn])

/-- Per-leaf action of the format validator on one tier slot: returns the
new stored value together with `some v` when an issue is pushed, where `v`
is the `value` field of the pushed issue.  Null slots are skipped by the
explicit null check; invalid slots get the marker appended unless already
present. -/
def fmtStep (v : Option Str) : Option Str × Option Str :=
  match v with
  | none => (none, none)
  | some s =>
    if (validateTimeFormat (some s)).valid then (some s, none)
    else
      let newVal := if containsWarn s then s else s ++ [Ch.warn]
      (some newVal, some newVal)

/-- Per-course action of the format validator: the three tiers are
processed in the fixed order A, B+, B. -/
def fmtCourse (age : Str) (g : Gender) (ev : Str) (c : Course)
    (ct : CourseTimes) : CourseTimes × List Issue :=
  let mk : Standard → Option Str → List Issue := fun std ov =>
    match ov with
    | some v => [⟨age, g, ev, c, std, some v, .invalidFormat⟩]
    | none => []
  (⟨(fmtStep ct.A).1, (fmtStep ct.BPlus).1, (fmtStep ct.B).1⟩,
   mk .A (fmtStep ct.A).2 ++ mk .BPlus (fmtStep ct.BPlus).2 ++ mk .B (fmtStep ct.B).2)

/-- Per-course action of the progression validator, translated from the
body of the inner `forEach` of `processTimeStandards` in
`validate-time-progression.js`. -/
def progCourse (age : Str) (g : Gender) (ev : Str) (c : Course)
    (ct : CourseTimes) : CourseTimes × List Issue :=
  let timeA := ct.A
  let timeBPlus := ct.BPlus
  let timeB := ct.B
  let validation := validateProgression timeA timeBPlus timeB
  if validation.valid then (ct, [])
  else
    let csA := timeTocentiseconds timeA
    let csBPlus := timeTocentiseconds timeBPlus
    let csB := timeTocentiseconds timeB
    let flagBPlus : Bool := match csA, csBPlus with
      | some x, some y => decide (x ≥ y)
      | _, _ => false
    let flagB : Bool := match csBPlus, csB with
      | some x, some y => decide (x ≥ y)
      | _, _ => false
    let newBPlus := if flagBPlus then appendWarnGuard timeBPlus else timeBPlus
    let newB := if flagB then appendWarnGuard timeB else timeB
    let issuesBPlus : List Issue :=
      if flagBPlus then
        [⟨age, g, ev, c, .BPlus, newBPlus, .invalidProgression⟩]
      else []
    let issuesB : List Issue :=
      if flagB then
        [⟨age, g, ev, c, .B, newB, .invalidProgression⟩]
      else []
    (⟨timeA, newBPlus, newB⟩, issuesBPlus ++ issuesB)

/-- A per-course processing action (shared shape of the two validators). -/
abbrev CourseProc := Str → Gender → Str → Course → CourseTimes → CourseTimes × List Issue

/-- Process one event: the three courses are visited in the fixed order
SCY, SCM, LCM, skipping absent course records. -/
def procCourseSlot (f : CourseProc) (age : Str) (g : Gender) (n : Str)
    (c : Course) (oct : Option CourseTimes) : Option CourseTimes × List Issue :=
  match oct with
  | none => (none, [])
  | some ct => (some (f age g n c ct).1, (f age g n c ct).2)

def procEvent (f : CourseProc) (age : Str) (g : Gender) (e : Event) :
    Event × List Issue :=
  (⟨e.name,
    (procCourseSlot f age g e.name .SCY e.SCY).1,
    (procCourseSlot f age g e.name .SCM e.SCM).1,
    (procCourseSlot f age g e.name .LCM e.LCM).1⟩,
   (procCourseSlot f age g e.name .SCY e.SCY).2 ++
   (procCourseSlot f age g e.name .SCM e.SCM).2 ++
   (procCourseSlot f age g e.name .LCM e.LCM).2)

/-- Process the event list of one gender bucket in order. -/
def procEvents (f : CourseProc) (age : Str) (g : Gender) :
    List Event → List Event × List Issue
  | [] => ([], [])
  | e :: es =>
    ((procEvent f age g e).1 :: (procEvents f age g es).1,
     (procEvent f age g e).2 ++ (procEvents f age g es).2)

/-- Process one gender bucket, skipping it when the bucket or its `events`
array is absent. -/
def procBucket (f : CourseProc) (age : Str) (g : Gender)
    (ob : Option GenderBucket) : Option GenderBucket × List Issue :=
  match ob with
  | none => (none, [])
  | some b =>
    match b.events with
    | none => (some b, [])
    | some es =>
      (some ⟨some (procEvents f age g es).1⟩, (procEvents f age g es).2)

/-- Process one age group: Girls before Boys; a missing `genders` object
skips the group. -/
def procAgeGroup (f : CourseProc) (ag : AgeGroup) : AgeGroup × List Issue :=
  match ag.genders with
  | none => (ag, [])
  | some gs =>
    (⟨ag.age, some ⟨(procBucket f ag.age .Girls gs.Girls).1,
                    (procBucket f ag.age .Boys gs.Boys).1⟩⟩,
     (procBucket f ag.age .Girls gs.Girls).2 ++ (procBucket f ag.age .Boys gs.Boys).2)

/-- Process the age-group list in order. -/
def procGroups (f : CourseProc) : List AgeGroup → List AgeGroup × List Issue
  | [] => ([], [])
  | ag :: ags =>
    ((procAgeGroup f ag).1 :: (procGroups f ags).1,
     (procAgeGroup f ag).2 ++ (procGroups f ags).2)

/-- `processTimeStandards` shared shell: throw when `ageGroups` is missing
or not an array, otherwise traverse and return the mutated document with
the accumulated issues. -/
def processDoc (f : CourseProc) (d : StandardsDocument) :
    Except StructuralError (StandardsDocument × List Issue) :=
  match d.ageGroups with
  | none => .error .ageGroupsNotFound
  | some gs => .ok (⟨some (procGroups f gs).1⟩, (procGroups f gs).2)

/-- `processTimeStandards` of `validate-time-format.js`. -/
def processTimeStandardsFormat (d : StandardsDocument) :
    Except StructuralError (StandardsDocument × List Issue) :=
  processDoc fmtCourse d

/-- `processTimeStandards` of `validate-time-progression.js`. -/
def processTimeStandardsProgression (d : StandardsDocument) :
    Except StructuralError (StandardsDocument × List Issue) :=
  processDoc progCourse d

/-- Input to `main` of either validator script: the command-line file either
fails JSON parsing or yields a document. -/
inductive MainInput where
  | unparseable : MainInput
  | parsed : StandardsDocument → MainInput
deriving DecidableEq, Repr

/-- Exit code of `main` in `validate-time-progression.js`: every error
(JSON parse failure or structural error) is caught and exits 1; otherwise
the script exits 0 whether or not issues were found. -/
def mainExitProgression : MainInput → Nat
  | .unparseable => 1
  | .parsed d =>
    match processTimeStandardsProgression d with
    | .error _ => 1
    | .ok _ => 0

/-- Exit code of `main` in `validate-time-format.js` (same control flow). -/
def mainExitFormat : MainInput → Nat
  | .unparseable => 1
  | .parsed d =>
    match processTimeStandardsFormat d with
    | .error _ => 1
    | .ok _ => 0

/-- Number of issues reported by a progression run that completed. -/
def issueCountProgression (d : StandardsDocument) : Option Nat :=
  match processTimeStandardsProgression d with
  | .error _ => none
  | .ok (_, is) => some is.length

/-! ### Renderer (`update-readme-inconsistencies.js`) -/

/-- `getAgeNumericValue` helper: the first maximal digit run in the label,
as a number, if any. -/
def firstNumber : Str → Option Nat
  | [] => none
  | c :: cs =>
    match c with
    | Ch.digit d => some (digitsToNat (d :: (takeDigits cs).1))
    | _ => firstNumber cs

/-- `getAgeNumericValue`: first integer of the label, defaulting to 999. -/
def getAgeNumericValue (age : Str) : Nat :=
  (firstNumber age).getD 999

/-- `isAgeRange`: the label contains a hyphen. -/
def isAgeRange (age : Str) : Bool := age.contains Ch.hyphen

/-- First match of the regex `(digits)-(digits)` in the label, scanning
left to right, with both digit runs maximal. -/
def findRange : Str → Option (Nat × Nat)
  | [] => none
  | c :: cs =>
    match c with
    | Ch.digit d =>
      let (run, after) := takeDigits cs
      (match after with
       | Ch.hyphen :: rest2 =>
         (match rest2 with
          | Ch.digit d2 :: rest3 =>
            some (digitsToNat (d :: run), digitsToNat (d2 :: (takeDigits rest3).1))
          | _ => findRange cs)
       | _ => findRange cs)
    | _ => findRange cs

/-- `getAgeEndValue`: for a range label, the end number of the first
matched range (999 when the regex does not match); otherwise the first
integer of the label. -/
def getAgeEndValue (age : Str) : Nat :=
  if isAgeRange age then
    match findRange age with
    | some (_, e) => e
    | none => 999
  else getAgeNumericValue age

/-- `getCourseSortOrder`: index in the fixed list SCY, SCM, LCM. -/
def getCourseSortOrder : Course → Nat
  | .SCY => 0
  | .SCM => 1
  | .LCM => 2

/-- `getStandardSortOrder`: index in the fixed list A, B+, B. -/
def getStandardSortOrder : Standard → Nat
  | .A => 0
  | .BPlus => 1
  | .B => 2

/-- Model of `localeCompare`: lexicographic comparison of the injective
character codes, returning a negative, zero, or positive number. -/
def lexCompare : Str → Str → Int
  | [], [] => 0
  | [], _ :: _ => -1
  | _ :: _, [] => 1
  | a :: as, b :: bs =>
    if chCode a < chCode b then -1
    else if chCode b < chCode a then 1
    else lexCompare as bs

/-- The sort comparator of `generateTable`, translated branch by branch. -/
def issueCmp (a b : Issue) : Int :=
  let aSortValue : Int := if isAgeRange a.age then getAgeEndValue a.age else getAgeNumericValue a.age
  let bSortValue : Int := if isAgeRange b.age then getAgeEndValue b.age else getAgeNumericValue b.age
  if aSortValue - bSortValue ≠ 0 then aSortValue - bSortValue
  else if isAgeRange a.age ≠ isAgeRange b.age then (if isAgeRange a.age then 1 else -1)
  else if a.gender ≠ b.gender then (if a.gender = .Girls then -1 else 1)
  else if a.event ≠ b.event then lexCompare a.event b.event
  else if (getCourseSortOrder a.course : Int) - getCourseSortOrder b.course ≠ 0 then
    (getCourseSortOrder a.course : Int) - getCourseSortOrder b.course
  else (getStandardSortOrder a.standard : Int) - getStandardSortOrder b.standard

/-- The non-strict order induced by the comparator. -/
def issueLE (a b : Issue) : Prop := issueCmp a b ≤ 0

instance : DecidableRel issueLE := fun a b => inferInstanceAs (Decidable (issueCmp a b ≤ 0))

/-- The sort performed by `generateTable` (`issues.sort(comparator)`),
modelled as a comparison sort with the translated comparator. -/
def sortIssues (l : List Issue) : List Issue :=
  List.insertionSort issueLE l

/-! ### Supporting lemmas -/

/-- Number of warning markers in a string. -/
def warnCount (s : Str) : Nat := s.count Ch.warn

theorem containsWarn_iff (s : Str) : containsWarn s = true ↔ Ch.warn ∈ s := by
  simp [containsWarn, List.elem_iff]

theorem containsWarn_false_iff (s : Str) : containsWarn s = false ↔ Ch.warn ∉ s := by
  rw [← containsWarn_iff]
  cases containsWarn s <;> simp

theorem removeFirstWarn_of_not_contains (s : Str) (h : containsWarn s = false) :
    removeFirstWarn s = s := by
  induction s with
  | nil => rfl
  | cons c cs ih =>
    rw [containsWarn_false_iff] at h
    have hc : c ≠ Ch.warn := fun he => h (he ▸ List.mem_cons_self c cs)
    have hcs : containsWarn cs = false := by
      rw [containsWarn_false_iff]
      exact fun hm => h (List.mem_cons_of_mem c hm)
    simp [removeFirstWarn, hc, ih hcs]

theorem removeFirstWarn_append_warn (s : Str) (h : containsWarn s = false) :
    removeFirstWarn (s ++ [Ch.warn]) = s := by
  induction s with
  | nil => rfl
  | cons c cs ih =>
    rw [containsWarn_false_iff] at h
    have hc : c ≠ Ch.warn := fun he => h (he ▸ List.mem_cons_self c cs)
    have hcs : containsWarn cs = false := by
      rw [containsWarn_false_iff]
      exact fun hm => h (List.mem_cons_of_mem c hm)
    simp [removeFirstWarn, hc, ih hcs]

theorem warnCount_eq_zero (s : Str) (h : containsWarn s = false) : warnCount s = 0 := by
  rw [containsWarn_false_iff] at h
  simp [warnCount, List.count_eq_zero]
  exact h

/-! ### Claims C10, C7, C4, C3 -/

/-- Claim C10: a leaf whose stored value is the empty string yields no issue
and is left unchanged by the format validator; only null leaves are skipped
by the explicit null check, while the empty string is judged valid because
the format checker returns valid for any falsy input. -/
theorem claim_c10_empty_string :
    (validateTimeFormat (some [])).valid = true ∧
    fmtStep none = (none, none) ∧
    fmtStep (some []) = (some [], none) ∧
    (∀ (age : Str) (g : Gender) (ev : Str) (c : Course),
      fmtCourse age g ev c ⟨some [], some [], some []⟩ =
        (⟨some [], some [], some []⟩, [])) := by
  refine ⟨by decide, rfl, by decide, fun age g ev c => rfl⟩

/-- Helper: on a document that has its age-group sequence, `processDoc`
always returns a result. -/
theorem processDoc_some (f : CourseProc) (gs : List AgeGroup) :
    processDoc f ⟨some gs⟩ =
      .ok (⟨some (procGroups f gs).1⟩, (procGroups f gs).2) := by
  rcases h : procGroups f gs with ⟨gs2, is⟩
  simp [processDoc, h]

/-- Claim C7: a document whose top-level age-group sequence is missing makes
both validators raise a structural error with no issues recorded, while a
document that has the sequence always processes to a result, with issues
accumulated in the returned list and never thrown. -/
theorem claim_c7_structural :
    (∀ d : StandardsDocument, d.ageGroups = none →
      processTimeStandardsFormat d = .error .ageGroupsNotFound ∧
      processTimeStandardsProgression d = .error .ageGroupsNotFound) ∧
    (∀ gs : List AgeGroup,
      processTimeStandardsFormat ⟨some gs⟩ =
        .ok (⟨some (procGroups fmtCourse gs).1⟩, (procGroups fmtCourse gs).2) ∧
      processTimeStandardsProgression ⟨some gs⟩ =
        .ok (⟨some (procGroups progCourse gs).1⟩, (procGroups progCourse gs).2)) := by
  constructor
  · intro d h
    obtain ⟨ag⟩ := d
    cases h
    exact ⟨rfl, rfl⟩
  · intro gs
    exact ⟨processDoc_some fmtCourse gs, processDoc_some progCourse gs⟩

/-- Witness for claim C7 at concrete inputs. -/
theorem claim_c7_witness :
    processTimeStandardsFormat ⟨none⟩ = .error .ageGroupsNotFound ∧
    processTimeStandardsProgression ⟨some []⟩ = .ok (⟨some []⟩, []) := by
  exact ⟨(claim_c7_structural.1 ⟨none⟩ rfl).1, (claim_c7_structural.2 []).2⟩

/-- Counterexample for claim C4: a completed run with zero issues and a
completed run with one issue exit with the same status (0), so the three
outcomes are not signalled by three distinct exit statuses. -/
theorem claim_c4_counterexample :
    issueCountProgression ⟨some []⟩ = some 0 ∧
    issueCountProgression ⟨some [⟨[Ch.digit 1, Ch.digit 0], some ⟨some ⟨some
      [⟨[Ch.other 70], some ⟨some [Ch.digit 3, Ch.digit 5, Ch.dot, Ch.digit 0, Ch.digit 0],
        some [Ch.digit 3, Ch.digit 1, Ch.dot, Ch.digit 0, Ch.digit 0],
        some [Ch.digit 3, Ch.digit 2, Ch.dot, Ch.digit 0, Ch.digit 0]⟩, none, none⟩]⟩, none⟩⟩]⟩
      = some 1 ∧
    mainExitProgression (.parsed ⟨some []⟩) = 0 ∧
    mainExitProgression (.parsed ⟨some [⟨[Ch.digit 1, Ch.digit 0], some ⟨some ⟨some
      [⟨[Ch.other 70], some ⟨some [Ch.digit 3, Ch.digit 5, Ch.dot, Ch.digit 0, Ch.digit 0],
        some [Ch.digit 3, Ch.digit 1, Ch.dot, Ch.digit 0, Ch.digit 0],
        some [Ch.digit 3, Ch.digit 2, Ch.dot, Ch.digit 0, Ch.digit 0]⟩, none, none⟩]⟩, none⟩⟩]⟩) = 0 := by
  decide

/-- Claim C4 as amended: the validator scripts expose only two distinct exit
statuses: 1 for an unparseable input or a document missing the age-group
sequence, and 0 for any completed run whether or not issues were found. -/
theorem claim_c4_amended :
    mainExitProgression .unparseable = 1 ∧ mainExitFormat .unparseable = 1 ∧
    (∀ d : StandardsDocument, d.ageGroups = none →
      mainExitProgression (.parsed d) = 1 ∧ mainExitFormat (.parsed d) = 1) ∧
    (∀ (d : StandardsDocument) (gs : List AgeGroup), d.ageGroups = some gs →
      mainExitProgression (.parsed d) = 0 ∧ mainExitFormat (.parsed d) = 0) := by
  refine ⟨rfl, rfl, ?_, ?_⟩
  · intro d h
    obtain ⟨ag⟩ := d
    cases h
    exact ⟨rfl, rfl⟩
  · intro d gs h
    obtain ⟨ag⟩ := d
    cases h
    constructor
    · show (match processTimeStandardsProgression ⟨some gs⟩ with
        | .error _ => 1 | .ok _ => 0) = 0
      rw [show processTimeStandardsProgression ⟨some gs⟩ =
        .ok (⟨some (procGroups progCourse gs).1⟩, (procGroups progCourse gs).2) from
        processDoc_some progCourse gs]
    · show (match processTimeStandardsFormat ⟨some gs⟩ with
        | .error _ => 1 | .ok _ => 0) = 0
      rw [show processTimeStandardsFormat ⟨some gs⟩ =
        .ok (⟨some (procGroups fmtCourse gs).1⟩, (procGroups fmtCourse gs).2) from
        processDoc_some fmtCourse gs]

/-- Witness for claim C4 as amended, at concrete inputs. -/
theorem claim_c4_witness :
    mainExitProgression (.parsed ⟨none⟩) = 1 ∧ mainExitFormat (.parsed ⟨some []⟩) = 0 :=
  ⟨(claim_c4_amended.2.2.1 ⟨none⟩ rfl).1, (claim_c4_amended.2.2.2 ⟨some []⟩ [] rfl).2⟩

/-- Counterexample for claim C3: the A value carries the warning marker, yet
the progression check is not skipped: the marker is stripped before parsing,
the progression A ≥ B+ is detected, the B+ value is mutated and an issue is
emitted. -/
theorem claim_c3_counterexample :
    containsWarn [Ch.digit 3, Ch.digit 5, Ch.dot, Ch.digit 0, Ch.digit 0, Ch.warn] = true ∧
    (progCourse [] .Girls [] .SCY
      ⟨some [Ch.digit 3, Ch.digit 5, Ch.dot, Ch.digit 0, Ch.digit 0, Ch.warn],
       some [Ch.digit 3, Ch.digit 1, Ch.dot, Ch.digit 0, Ch.digit 0],
       some [Ch.digit 3, Ch.digit 2, Ch.dot, Ch.digit 0, Ch.digit 0]⟩).2 =
      [⟨[], .Girls, [], .SCY, .BPlus,
        some [Ch.digit 3, Ch.digit 1, Ch.dot, Ch.digit 0, Ch.digit 0, Ch.warn],
        .invalidProgression⟩] := by
  decide

/-- Claim C3 as amended: the progression validator skips a course/event
(emitting no issue and leaving the course unchanged) whenever the A, B+, or
B value is absent or fails to parse after marker-stripping; the presence of
a warning marker alone does not cause a skip, since markers are stripped
before parsing. -/
theorem claim_c3_amended (age : Str) (g : Gender) (ev : Str) (c : Course)
    (a bp b : Option Str)
    (h : timeTocentiseconds a = none ∨ timeTocentiseconds bp = none ∨
         timeTocentiseconds b = none) :
    progCourse age g ev c ⟨a, bp, b⟩ = (⟨a, bp, b⟩, []) := by
  have hv : validateProgression a bp b = ⟨true, none⟩ := by
    rcases ha : timeTocentiseconds a with _ | ca <;>
      rcases hb : timeTocentiseconds bp with _ | cbp <;>
      rcases hc : timeTocentiseconds b with _ | cb <;>
      simp_all [validateProgression]
  simp [progCourse, hv]

/-- Witness for claim C3 as amended: a course with a null A value is left
untouched. -/
theorem claim_c3_witness :
    progCourse [] .Girls [] .SCY
      ⟨none, some [Ch.digit 3, Ch.digit 1, Ch.dot, Ch.digit 0, Ch.digit 0],
       some [Ch.digit 3, Ch.digit 2, Ch.dot, Ch.digit 0, Ch.digit 0]⟩ =
    (⟨none, some [Ch.digit 3, Ch.digit 1, Ch.dot, Ch.digit 0, Ch.digit 0],
      some [Ch.digit 3, Ch.digit 2, Ch.dot, Ch.digit 0, Ch.digit 0]⟩, []) :=
  claim_c3_amended [] .Girls [] .SCY none _ _ (Or.inl rfl)

/-! ### Claims C1 and C9: the progression course characterization -/

theorem ne_nil_of_tc_some (s : Str) (cs : Nat)
    (h : timeTocentiseconds (some s) = some cs) : s ≠ [] := by
  intro he
  subst he
  simp [timeTocentiseconds, jsFalsy] at h

theorem appendWarnGuard_of_clean (s : Str) (hne : s ≠ [])
    (hw : containsWarn s = false) :
    appendWarnGuard (some s) = some (s ++ [Ch.warn]) := by
  simp [appendWarnGuard, List.isEmpty_iff, hne, hw]

/-- Full characterization of one progression-validator course step when all
three tiers parse and the B+ and B values are marker-free: A is never
touched, B+ is marked and reported exactly when parsed A ≥ parsed B+, and B
is marked and reported exactly when parsed B+ ≥ parsed B, with the B+ issue
listed first. -/
theorem progCourse_char (age : Str) (g : Gender) (ev : Str) (c : Course)
    (a bp b : Str) (ca cbp cb : Nat)
    (h1 : timeTocentiseconds (some a) = some ca)
    (h2 : timeTocentiseconds (some bp) = some cbp)
    (h3 : timeTocentiseconds (some b) = some cb)
    (hw2 : containsWarn bp = false)
    (hw3 : containsWarn b = false) :
    progCourse age g ev c ⟨some a, some bp, some b⟩ =
      (⟨some a,
        if ca ≥ cbp then some (bp ++ [Ch.warn]) else some bp,
        if cbp ≥ cb then some (b ++ [Ch.warn]) else some b⟩,
       (if ca ≥ cbp then
          [⟨age, g, ev, c, .BPlus, some (bp ++ [Ch.warn]), .invalidProgression⟩]
        else []) ++
       (if cbp ≥ cb then
          [⟨age, g, ev, c, .B, some (b ++ [Ch.warn]), .invalidProgression⟩]
        else [])) := by
  have hg2 := appendWarnGuard_of_clean bp (ne_nil_of_tc_some bp cbp h2) hw2
  have hg3 := appendWarnGuard_of_clean b (ne_nil_of_tc_some b cb h3) hw3
  by_cases hA : ca ≥ cbp <;> by_cases hB : cbp ≥ cb <;>
    simp [progCourse, validateProgression, h1, h2, h3, hA, hB, hg2, hg3]

/-- Claim C9: when all three tiers parse (and B+ and B are marker-free),
finding parsed A ≥ parsed B+ marks the B+ value and emits a B+ issue (never
an A issue, and A is never mutated); finding parsed B+ ≥ parsed B marks the
B value and emits a B issue; when both violations hold, both issues are
emitted with the B+ issue first. -/
theorem claim_c9_flagging (age : Str) (g : Gender) (ev : Str) (c : Course)
    (a bp b : Str) (ca cbp cb : Nat)
    (h1 : timeTocentiseconds (some a) = some ca)
    (h2 : timeTocentiseconds (some bp) = some cbp)
    (h3 : timeTocentiseconds (some b) = some cb)
    (hw2 : containsWarn bp = false)
    (hw3 : containsWarn b = false) :
    (progCourse age g ev c ⟨some a, some bp, some b⟩).1.A = some a ∧
    (∀ i ∈ (progCourse age g ev c ⟨some a, some bp, some b⟩).2, i.standard ≠ .A) ∧
    (ca ≥ cbp →
      (progCourse age g ev c ⟨some a, some bp, some b⟩).1.BPlus = some (bp ++ [Ch.warn]) ∧
      ⟨age, g, ev, c, .BPlus, some (bp ++ [Ch.warn]), .invalidProgression⟩ ∈
        (progCourse age g ev c ⟨some a, some bp, some b⟩).2) ∧
    (cbp ≥ cb →
      (progCourse age g ev c ⟨some a, some bp, some b⟩).1.B = some (b ++ [Ch.warn]) ∧
      ⟨age, g, ev, c, .B, some (b ++ [Ch.warn]), .invalidProgression⟩ ∈
        (progCourse age g ev c ⟨some a, some bp, some b⟩).2) ∧
    (ca ≥ cbp → cbp ≥ cb →
      (progCourse age g ev c ⟨some a, some bp, some b⟩).2 =
        [⟨age, g, ev, c, .BPlus, some (bp ++ [Ch.warn]), .invalidProgression⟩,
         ⟨age, g, ev, c, .B, some (b ++ [Ch.warn]), .invalidProgression⟩]) := by
  rw [progCourse_char age g ev c a bp b ca cbp cb h1 h2 h3 hw2 hw3]
  by_cases hA : ca ≥ cbp <;> by_cases hB : cbp ≥ cb <;> simp [hA, hB]

/-- Witness for claim C9 at a concrete course (A 35.00, B+ 31.00, B 31.00):
both violations hold and both issues are emitted, B+ first. -/
theorem claim_c9_witness :
    (progCourse [] .Girls [] .SCY
      ⟨some [Ch.digit 3, Ch.digit 5, Ch.dot, Ch.digit 0, Ch.digit 0],
       some [Ch.digit 3, Ch.digit 1, Ch.dot, Ch.digit 0, Ch.digit 0],
       some [Ch.digit 3, Ch.digit 1, Ch.dot, Ch.digit 0, Ch.digit 0]⟩).2 =
      [⟨[], .Girls, [], .SCY, .BPlus,
        some [Ch.digit 3, Ch.digit 1, Ch.dot, Ch.digit 0, Ch.digit 0, Ch.warn],
        .invalidProgression⟩,
       ⟨[], .Girls, [], .SCY, .B,
        some [Ch.digit 3, Ch.digit 1, Ch.dot, Ch.digit 0, Ch.digit 0, Ch.warn],
        .invalidProgression⟩] :=
  (claim_c9_flagging [] .Girls [] .SCY _ _ _ 3500 3100 3100
    (by decide) (by decide) (by decide) (by decide) (by decide)).2.2.2.2
    (by decide) (by decide)

/-- Claim-side definition, following the words of the specification:
`expectedB = floor(A_seconds × 1.1 × 10) / 10 + 0.09`. -/
def specExpectedB (aSeconds : ℚ) : ℚ :=
  ((⌊aSeconds * (11 / 10) * 10⌋ : ℤ) : ℚ) / 10 + 9 / 100

/-- Claim-side definition, following the words of the specification:
`expectedBPlus = floor(((A_seconds + B_ref) / 2) × 10) / 10 + 0.09`. -/
def specExpectedBPlus (aSeconds bRef : ℚ) : ℚ :=
  ((⌊(aSeconds + bRef) / 2 * 10⌋ : ℤ) : ℚ) / 10 + 9 / 100

/-- Counterexample for claim C1: for A = 1:00.00, B+ = 1:03.09, B = 1:10.00
the claimed formula gives expectedB = 66.09 s, and the stored B (70.00 s)
differs from it by far more than the 0.005 s tolerance, so the claim
requires a B issue stating the expected value; the code, which only checks
the ordering A < B+ < B, emits no issue at all and computes no expected
value. -/
theorem claim_c1_counterexample :
    timeTocentiseconds (some [Ch.digit 1, Ch.colon, Ch.digit 0, Ch.digit 0,
      Ch.dot, Ch.digit 0, Ch.digit 0]) = some 6000 ∧
    timeTocentiseconds (some [Ch.digit 1, Ch.colon, Ch.digit 0, Ch.digit 3,
      Ch.dot, Ch.digit 0, Ch.digit 9]) = some 6309 ∧
    timeTocentiseconds (some [Ch.digit 1, Ch.colon, Ch.digit 1, Ch.digit 0,
      Ch.dot, Ch.digit 0, Ch.digit 0]) = some 7000 ∧
    specExpectedB 60 = 6609 / 100 ∧
    |(7000 : ℚ) / 100 - specExpectedB 60| > 5 / 1000 ∧
    progCourse [] .Girls [] .SCY
      ⟨some [Ch.digit 1, Ch.colon, Ch.digit 0, Ch.digit 0, Ch.dot, Ch.digit 0, Ch.digit 0],
       some [Ch.digit 1, Ch.colon, Ch.digit 0, Ch.digit 3, Ch.dot, Ch.digit 0, Ch.digit 9],
       some [Ch.digit 1, Ch.colon, Ch.digit 1, Ch.digit 0, Ch.dot, Ch.digit 0, Ch.digit 0]⟩ =
      (⟨some [Ch.digit 1, Ch.colon, Ch.digit 0, Ch.digit 0, Ch.dot, Ch.digit 0, Ch.digit 0],
        some [Ch.digit 1, Ch.colon, Ch.digit 0, Ch.digit 3, Ch.dot, Ch.digit 0, Ch.digit 9],
        some [Ch.digit 1, Ch.colon, Ch.digit 1, Ch.digit 0, Ch.dot, Ch.digit 0, Ch.digit 0]⟩,
       []) := by
  have hB : specExpectedB 60 = 6609 / 100 := by
    have h660 : (60 * ((11 : ℚ) / 10) * 10) = ((660 : ℤ) : ℚ) := by norm_num
    rw [specExpectedB, h660, Int.floor_intCast]
    norm_num
  refine ⟨by decide, by decide, by decide, hB, ?_, by decide⟩
  rw [hB]
  rw [abs_of_pos (by norm_num)]
  norm_num

/-- Claim C1 as amended: the progression validator computes no expected
values; for a course whose three tiers all parse (B+ and B marker-free) it
emits a B+ issue exactly when parsed A ≥ parsed B+ and a B issue exactly
when parsed B+ ≥ parsed B, and every emitted issue carries the constant
description "Invalid progression" rather than an expected value. -/
theorem claim_c1_amended (age : Str) (g : Gender) (ev : Str) (c : Course)
    (a bp b : Str) (ca cbp cb : Nat)
    (h1 : timeTocentiseconds (some a) = some ca)
    (h2 : timeTocentiseconds (some bp) = some cbp)
    (h3 : timeTocentiseconds (some b) = some cb)
    (hw2 : containsWarn bp = false)
    (hw3 : containsWarn b = false) :
    (progCourse age g ev c ⟨some a, some bp, some b⟩).2 =
      (if ca ≥ cbp then
        [⟨age, g, ev, c, .BPlus, some (bp ++ [Ch.warn]), .invalidProgression⟩]
      else []) ++
      (if cbp ≥ cb then
        [⟨age, g, ev, c, .B, some (b ++ [Ch.warn]), .invalidProgression⟩]
      else []) ∧
    (∀ i ∈ (progCourse age g ev c ⟨some a, some bp, some b⟩).2,
      i.issue = .invalidProgression) := by
  rw [progCourse_char age g ev c a bp b ca cbp cb h1 h2 h3 hw2 hw3]
  refine ⟨rfl, ?_⟩
  by_cases hA : ca ≥ cbp <;> by_cases hB : cbp ≥ cb <;> simp [hA, hB]

/-- Witness for claim C1 as amended, at a concrete course (A 35.00,
B+ 31.00, B 32.00): exactly the B+ issue is emitted. -/
theorem claim_c1_witness :
    (progCourse [] .Boys [] .SCM
      ⟨some [Ch.digit 3, Ch.digit 5, Ch.dot, Ch.digit 0, Ch.digit 0],
       some [Ch.digit 3, Ch.digit 1, Ch.dot, Ch.digit 0, Ch.digit 0],
       some [Ch.digit 3, Ch.digit 2, Ch.dot, Ch.digit 0, Ch.digit 0]⟩).2 =
      [⟨[], .Boys, [], .SCM, .BPlus,
        some [Ch.digit 3, Ch.digit 1, Ch.dot, Ch.digit 0, Ch.digit 0, Ch.warn],
        .invalidProgression⟩] := by
  have h := (claim_c1_amended [] .Boys [] .SCM
    [Ch.digit 3, Ch.digit 5, Ch.dot, Ch.digit 0, Ch.digit 0]
    [Ch.digit 3, Ch.digit 1, Ch.dot, Ch.digit 0, Ch.digit 0]
    [Ch.digit 3, Ch.digit 2, Ch.dot, Ch.digit 0, Ch.digit 0]
    3500 3100 3200
    (by decide) (by decide) (by decide) (by decide) (by decide)).1
  rw [h]
  decide

/-! ### Claim C5: out-of-range seconds -/

/-- A text of the accepted minutes form `M+:SS.CC`. -/
def mkMinutesStr (mds : List (Fin 10)) (s1 s2 c1 c2 : Fin 10) : Str :=
  mds.map Ch.digit ++ [Ch.colon, Ch.digit s1, Ch.digit s2, Ch.dot, Ch.digit c1, Ch.digit c2]

/-- A text of the accepted two-digit-seconds form `SS.CC`. -/
def mkSecondsStr (s1 s2 c1 c2 : Fin 10) : Str :=
  [Ch.digit s1, Ch.digit s2, Ch.dot, Ch.digit c1, Ch.digit c2]

theorem takeDigits_digits_append (mds : List (Fin 10)) (c : Ch) (tail : Str)
    (hc : isDigitCh c = false) :
    takeDigits (mds.map Ch.digit ++ c :: tail) = (mds, c :: tail) := by
  induction mds with
  | nil =>
    cases c <;> simp [isDigitCh] at hc ⊢ <;> rfl
  | cons d ds ih =>
    simp [takeDigits, ih]

theorem containsWarn_mkMinutesStr (mds : List (Fin 10)) (s1 s2 c1 c2 : Fin 10) :
    containsWarn (mkMinutesStr mds s1 s2 c1 c2) = false := by
  rw [containsWarn_false_iff, mkMinutesStr]
  intro h
  rcases List.mem_append.1 h with h | h
  · rcases List.mem_map.1 h with ⟨d, _, hd⟩
    cases hd
  · simp at h

theorem matchWithMinutes_mk (mds : List (Fin 10)) (s1 s2 c1 c2 : Fin 10)
    (h : mds ≠ []) :
    matchWithMinutes (mkMinutesStr mds s1 s2 c1 c2) =
      some (digitsToNat mds, 10 * s1.val + s2.val, 10 * c1.val + c2.val) := by
  have ht : takeDigits (mkMinutesStr mds s1 s2 c1 c2) =
      (mds, [Ch.colon, Ch.digit s1, Ch.digit s2, Ch.dot, Ch.digit c1, Ch.digit c2]) := by
    rw [mkMinutesStr]
    exact takeDigits_digits_append mds Ch.colon _ rfl
  cases mds with
  | nil => exact absurd rfl h
  | cons d ds =>
    rw [matchWithMinutes, ht]

theorem validateTimeFormat_mkMinutes (mds : List (Fin 10)) (s1 s2 c1 c2 : Fin 10)
    (h : mds ≠ []) (hs : 60 ≤ 10 * s1.val + s2.val) :
    validateTimeFormat (some (mkMinutesStr mds s1 s2 c1 c2)) =
      ⟨false, some .invalidFormat⟩ := by
  have hne : mkMinutesStr mds s1 s2 c1 c2 ≠ [] := by
    simp [mkMinutesStr]
  have hw := containsWarn_mkMinutesStr mds s1 s2 c1 c2
  rw [validateTimeFormat]
  rw [if_neg (by simp [jsFalsy, List.isEmpty_iff, hne])]
  simp only [Option.getD_some]
  rw [removeFirstWarn_of_not_contains _ hw, matchWithMinutes_mk mds s1 s2 c1 c2 h]
  simp [hs]

theorem validateTimeFormat_mkSeconds (s1 s2 c1 c2 : Fin 10)
    (hs : 60 ≤ 10 * s1.val + s2.val) :
    validateTimeFormat (some (mkSecondsStr s1 s2 c1 c2)) =
      ⟨false, some .invalidFormat⟩ := by
  simp [validateTimeFormat, jsFalsy, mkSecondsStr, removeFirstWarn,
    matchWithMinutes, takeDigits, matchNoMinutes, hs]

theorem containsWarn_mkSeconds (s1 s2 c1 c2 : Fin 10) :
    containsWarn (mkSecondsStr s1 s2 c1 c2) = false := by
  rw [containsWarn_false_iff, mkSecondsStr]
  simp

/-- Effect of one format-validator pass on a course whose A slot holds an
invalid, marker-free value: the marker is appended once, and one issue with
description "Invalid format" is emitted. -/
theorem fmtCourse_invalid_A (age : Str) (g : Gender) (ev : Str) (c : Course)
    (t : Str) (hw : containsWarn t = false)
    (hv : validateTimeFormat (some t) = ⟨false, some .invalidFormat⟩) :
    fmtCourse age g ev c ⟨some t, none, none⟩ =
      (⟨some (t ++ [Ch.warn]), none, none⟩,
       [⟨age, g, ev, c, .A, some (t ++ [Ch.warn]), .invalidFormat⟩]) ∧
    warnCount (t ++ [Ch.warn]) = 1 := by
  constructor
  · simp [fmtCourse, fmtStep, hv, hw]
  · rw [warnCount, List.count_append]
    rw [show List.count Ch.warn t = 0 from warnCount_eq_zero t hw]
    rfl

/-- Claim C5: every time text in either accepted form whose seconds
component is at least 60 is reported format-invalid, and after one
format-validator pass the stored value carries exactly one warning marker
while an issue with description "Invalid format" is emitted for it. -/
theorem claim_c5_seconds_out_of_range :
    (∀ (mds : List (Fin 10)) (s1 s2 c1 c2 : Fin 10), mds ≠ [] →
      60 ≤ 10 * s1.val + s2.val →
      validateTimeFormat (some (mkMinutesStr mds s1 s2 c1 c2)) =
        ⟨false, some .invalidFormat⟩ ∧
      warnCount (mkMinutesStr mds s1 s2 c1 c2 ++ [Ch.warn]) = 1 ∧
      (∀ (age : Str) (g : Gender) (ev : Str) (c : Course),
        fmtCourse age g ev c ⟨some (mkMinutesStr mds s1 s2 c1 c2), none, none⟩ =
          (⟨some (mkMinutesStr mds s1 s2 c1 c2 ++ [Ch.warn]), none, none⟩,
           [⟨age, g, ev, c, .A, some (mkMinutesStr mds s1 s2 c1 c2 ++ [Ch.warn]),
             .invalidFormat⟩]))) ∧
    (∀ (s1 s2 c1 c2 : Fin 10), 60 ≤ 10 * s1.val + s2.val →
      validateTimeFormat (some (mkSecondsStr s1 s2 c1 c2)) =
        ⟨false, some .invalidFormat⟩ ∧
      warnCount (mkSecondsStr s1 s2 c1 c2 ++ [Ch.warn]) = 1 ∧
      (∀ (age : Str) (g : Gender) (ev : Str) (c : Course),
        fmtCourse age g ev c ⟨some (mkSecondsStr s1 s2 c1 c2), none, none⟩ =
          (⟨some (mkSecondsStr s1 s2 c1 c2 ++ [Ch.warn]), none, none⟩,
           [⟨age, g, ev, c, .A, some (mkSecondsStr s1 s2 c1 c2 ++ [Ch.warn]),
             .invalidFormat⟩]))) := by
  constructor
  · intro mds s1 s2 c1 c2 h hs
    have hv := validateTimeFormat_mkMinutes mds s1 s2 c1 c2 h hs
    have hw := containsWarn_mkMinutesStr mds s1 s2 c1 c2
    refine ⟨hv, ?_, fun age g ev c => (fmtCourse_invalid_A age g ev c _ hw hv).1⟩
    exact (fmtCourse_invalid_A [] .Girls [] .SCY _ hw hv).2
  · intro s1 s2 c1 c2 hs
    have hv := validateTimeFormat_mkSeconds s1 s2 c1 c2 hs
    have hw := containsWarn_mkSeconds s1 s2 c1 c2
    refine ⟨hv, ?_, fun age g ev c => (fmtCourse_invalid_A age g ev c _ hw hv).1⟩
    exact (fmtCourse_invalid_A [] .Girls [] .SCY _ hw hv).2

/-- Witness for claim C5 at the concrete texts 1:96.28 and 60.00. -/
theorem claim_c5_witness :
    validateTimeFormat (some (mkMinutesStr [1] 9 6 2 8)) =
      ⟨false, some .invalidFormat⟩ ∧
    validateTimeFormat (some (mkSecondsStr 6 0 0 0)) =
      ⟨false, some .invalidFormat⟩ :=
  ⟨(claim_c5_seconds_out_of_range.1 [1] 9 6 2 8 (by decide) (by decide)).1,
   (claim_c5_seconds_out_of_range.2 6 0 0 0 (by decide)).1⟩

/-! ### Claim C2: idempotence of the two passes on the document -/

theorem containsWarn_append_warn (s : Str) :
    containsWarn (s ++ [Ch.warn]) = true := by
  rw [containsWarn_iff]
  simp

theorem validateTimeFormat_append_warn (s : Str) (hne : s ≠ [])
    (hw : containsWarn s = false) :
    validateTimeFormat (some (s ++ [Ch.warn])) = validateTimeFormat (some s) := by
  rw [validateTimeFormat, validateTimeFormat]
  rw [if_neg (by simp [jsFalsy, List.isEmpty_iff])]
  rw [if_neg (by simp [jsFalsy, List.isEmpty_iff, hne])]
  simp only [Option.getD_some]
  rw [removeFirstWarn_append_warn s hw, removeFirstWarn_of_not_contains s hw]

theorem fmtStep_fst_idem (v : Option Str) :
    (fmtStep (fmtStep v).1).1 = (fmtStep v).1 := by
  match v with
  | none => rfl
  | some s =>
    by_cases hval : (validateTimeFormat (some s)).valid
    · simp [fmtStep, hval]
    · by_cases hw : containsWarn s
      · simp [fmtStep, hval, hw]
      · have hne : s ≠ [] := by
          intro he
          subst he
          exact hval (by decide)
        have hw2 : containsWarn s = false := by
          cases h : containsWarn s
          · rfl
          · exact absurd h hw
        have hval2 : (validateTimeFormat (some (s ++ [Ch.warn]))).valid = false := by
          rw [validateTimeFormat_append_warn s hne hw2]
          cases h : (validateTimeFormat (some s)).valid
          · rfl
          · exact absurd h hval
        simp [fmtStep, hval, hw2, hval2, containsWarn_append_warn]

theorem fmtCourse_fst_idem (age : Str) (g : Gender) (ev : Str) (c : Course)
    (ct : CourseTimes) :
    (fmtCourse age g ev c (fmtCourse age g ev c ct).1).1 =
      (fmtCourse age g ev c ct).1 := by
  simp [fmtCourse, fmtStep_fst_idem]

theorem tc_appendWarnGuard (v : Option Str) :
    timeTocentiseconds (appendWarnGuard v) = timeTocentiseconds v := by
  match v with
  | none => rfl
  | some s =>
    by_cases he : s.isEmpty
    · simp [appendWarnGuard, he]
    · by_cases hw : containsWarn s
      · simp [appendWarnGuard, he, hw]
      · have hw2 : containsWarn s = false := by
          cases h : containsWarn s
          · rfl
          · exact absurd h hw
        have hne : s ≠ [] := by
          intro h2
          subst h2
          exact he rfl
        rw [appendWarnGuard]
        rw [if_neg (by simp [he]), if_neg (by simp [hw2])]
        rw [timeTocentiseconds, timeTocentiseconds]
        rw [if_neg (by simp [jsFalsy, List.isEmpty_iff])]
        rw [if_neg (by simp [jsFalsy, he])]
        simp only [Option.getD_some]
        rw [removeFirstWarn_append_warn s hw2, removeFirstWarn_of_not_contains s hw2]

theorem appendWarnGuard_idem (v : Option Str) :
    appendWarnGuard (appendWarnGuard v) = appendWarnGuard v := by
  match v with
  | none => rfl
  | some s =>
    by_cases he : s.isEmpty
    · simp [appendWarnGuard, he]
    · by_cases hw : containsWarn s
      · simp [appendWarnGuard, he, hw]
      · have hw2 : containsWarn s = false := by
          cases h : containsWarn s
          · rfl
          · exact absurd h hw
        rw [appendWarnGuard]
        rw [if_neg (by simp [he]), if_neg (by simp [hw2])]
        rw [appendWarnGuard]
        rw [if_neg (by simp [List.isEmpty_iff]), if_pos (containsWarn_append_warn s)]

/-- Whether the progression pass flags the B+ slot. -/
def progFlagBPlus (ta tbp tb : Option Str) : Bool :=
  !(validateProgression ta tbp tb).valid &&
  (match timeTocentiseconds ta, timeTocentiseconds tbp with
   | some x, some y => decide (x ≥ y)
   | _, _ => false)

/-- Whether the progression pass flags the B slot. -/
def progFlagB (ta tbp tb : Option Str) : Bool :=
  !(validateProgression ta tbp tb).valid &&
  (match timeTocentiseconds tbp, timeTocentiseconds tb with
   | some x, some y => decide (x ≥ y)
   | _, _ => false)

theorem progCourse_fst_formula (age : Str) (g : Gender) (ev : Str) (c : Course)
    (ta tbp tb : Option Str) :
    (progCourse age g ev c ⟨ta, tbp, tb⟩).1 =
      ⟨ta,
       (if progFlagBPlus ta tbp tb then appendWarnGuard tbp else tbp),
       (if progFlagB ta tbp tb then appendWarnGuard tb else tb)⟩ := by
  by_cases hv : (validateProgression ta tbp tb).valid = true
  · simp [progCourse, progFlagBPlus, progFlagB, hv]
  · have hv2 : (validateProgression ta tbp tb).valid = false := by
      cases h : (validateProgression ta tbp tb).valid
      · rfl
      · exact absurd h hv
    simp [progCourse, progFlagBPlus, progFlagB, hv2]

theorem tc_ite_guard (b : Bool) (v : Option Str) :
    timeTocentiseconds (if b then appendWarnGuard v else v) = timeTocentiseconds v := by
  cases b
  · rfl
  · exact tc_appendWarnGuard v

theorem validateProgression_tc_congr (a a2 bp bp2 b b2 : Option Str)
    (h1 : timeTocentiseconds a = timeTocentiseconds a2)
    (h2 : timeTocentiseconds bp = timeTocentiseconds bp2)
    (h3 : timeTocentiseconds b = timeTocentiseconds b2) :
    validateProgression a bp b = validateProgression a2 bp2 b2 := by
  unfold validateProgression
  rw [h1, h2, h3]

theorem progFlagBPlus_tc_congr (a a2 bp bp2 b b2 : Option Str)
    (h1 : timeTocentiseconds a = timeTocentiseconds a2)
    (h2 : timeTocentiseconds bp = timeTocentiseconds bp2)
    (h3 : timeTocentiseconds b = timeTocentiseconds b2) :
    progFlagBPlus a bp b = progFlagBPlus a2 bp2 b2 := by
  unfold progFlagBPlus
  rw [h1, h2, validateProgression_tc_congr a a2 bp bp2 b b2 h1 h2 h3]

theorem progFlagB_tc_congr (a a2 bp bp2 b b2 : Option Str)
    (h1 : timeTocentiseconds a = timeTocentiseconds a2)
    (h2 : timeTocentiseconds bp = timeTocentiseconds bp2)
    (h3 : timeTocentiseconds b = timeTocentiseconds b2) :
    progFlagB a bp b = progFlagB a2 bp2 b2 := by
  unfold progFlagB
  rw [h2, h3, validateProgression_tc_congr a a2 bp bp2 b b2 h1 h2 h3]

theorem progCourse_fst_idem (age : Str) (g : Gender) (ev : Str) (c : Course)
    (ct : CourseTimes) :
    (progCourse age g ev c (progCourse age g ev c ct).1).1 =
      (progCourse age g ev c ct).1 := by
  obtain ⟨ta, tbp, tb⟩ := ct
  have hin := progCourse_fst_formula age g ev c ta tbp tb
  rw [hin, progCourse_fst_formula]
  have e2 := tc_ite_guard (progFlagBPlus ta tbp tb) tbp
  have e3 := tc_ite_guard (progFlagB ta tbp tb) tb
  have f1 := progFlagBPlus_tc_congr ta ta _ tbp _ tb rfl e2 e3
  have f2 := progFlagB_tc_congr ta ta _ tbp _ tb rfl e2 e3
  rw [f1, f2]
  have hx : (if progFlagBPlus ta tbp tb then
      appendWarnGuard (if progFlagBPlus ta tbp tb then appendWarnGuard tbp else tbp)
      else (if progFlagBPlus ta tbp tb then appendWarnGuard tbp else tbp)) =
      (if progFlagBPlus ta tbp tb then appendWarnGuard tbp else tbp) := by
    cases progFlagBPlus ta tbp tb
    · simp
    · simp [appendWarnGuard_idem]
  have hy : (if progFlagB ta tbp tb then
      appendWarnGuard (if progFlagB ta tbp tb then appendWarnGuard tb else tb)
      else (if progFlagB ta tbp tb then appendWarnGuard tb else tb)) =
      (if progFlagB ta tbp tb then appendWarnGuard tb else tb) := by
    cases progFlagB ta tbp tb
    · simp
    · simp [appendWarnGuard_idem]
  rw [hx, hy]

theorem procCourseSlot_fst_idem (f : CourseProc)
    (hf : ∀ age g n c ct, (f age g n c (f age g n c ct).1).1 = (f age g n c ct).1)
    (age : Str) (g : Gender) (n : Str) (c : Course) (oct : Option CourseTimes) :
    (procCourseSlot f age g n c (procCourseSlot f age g n c oct).1).1 =
      (procCourseSlot f age g n c oct).1 := by
  cases oct with
  | none => rfl
  | some ct => simp [procCourseSlot, hf]

theorem procEvent_fst_idem (f : CourseProc)
    (hf : ∀ age g n c ct, (f age g n c (f age g n c ct).1).1 = (f age g n c ct).1)
    (age : Str) (g : Gender) (e : Event) :
    (procEvent f age g (procEvent f age g e).1).1 = (procEvent f age g e).1 := by
  obtain ⟨n, o1, o2, o3⟩ := e
  simp [procEvent, procCourseSlot_fst_idem f hf]

theorem procEvents_fst_idem (f : CourseProc)
    (hf : ∀ age g n c ct, (f age g n c (f age g n c ct).1).1 = (f age g n c ct).1)
    (age : Str) (g : Gender) (es : List Event) :
    (procEvents f age g (procEvents f age g es).1).1 = (procEvents f age g es).1 := by
  induction es with
  | nil => rfl
  | cons e es ih => simp [procEvents, procEvent_fst_idem f hf, ih]

theorem procBucket_fst_idem (f : CourseProc)
    (hf : ∀ age g n c ct, (f age g n c (f age g n c ct).1).1 = (f age g n c ct).1)
    (age : Str) (g : Gender) (ob : Option GenderBucket) :
    (procBucket f age g (procBucket f age g ob).1).1 = (procBucket f age g ob).1 := by
  cases ob with
  | none => rfl
  | some b =>
    cases hbe : b.events with
    | none => simp [procBucket, hbe]
    | some es => simp [procBucket, hbe, procEvents_fst_idem f hf]

theorem procAgeGroup_fst_idem (f : CourseProc)
    (hf : ∀ age g n c ct, (f age g n c (f age g n c ct).1).1 = (f age g n c ct).1)
    (ag : AgeGroup) :
    (procAgeGroup f (procAgeGroup f ag).1).1 = (procAgeGroup f ag).1 := by
  obtain ⟨age, og⟩ := ag
  cases og with
  | none => rfl
  | some gs => simp [procAgeGroup, procBucket_fst_idem f hf]

theorem procGroups_fst_idem (f : CourseProc)
    (hf : ∀ age g n c ct, (f age g n c (f age g n c ct).1).1 = (f age g n c ct).1)
    (gs : List AgeGroup) :
    (procGroups f (procGroups f gs).1).1 = (procGroups f gs).1 := by
  induction gs with
  | nil => rfl
  | cons ag ags ih => simp [procGroups, procAgeGroup_fst_idem f hf, ih]

/-- Counterexample for claim C2: running the format validator a second time
on its own output re-emits an issue for the already-marked value, so the
new-issues list of the second run is not empty (the document itself is
unchanged). -/
theorem claim_c2_counterexample :
    (procGroups fmtCourse (procGroups fmtCourse
      [⟨[Ch.digit 1, Ch.digit 0], some ⟨some ⟨some
        [⟨[Ch.other 70], some ⟨some [Ch.digit 1, Ch.colon, Ch.digit 9, Ch.digit 6,
          Ch.dot, Ch.digit 0, Ch.digit 0], none, none⟩, none, none⟩]⟩, none⟩⟩]).1).2 =
      [⟨[Ch.digit 1, Ch.digit 0], .Girls, [Ch.other 70], .SCY, .A,
        some [Ch.digit 1, Ch.colon, Ch.digit 9, Ch.digit 6, Ch.dot, Ch.digit 0,
          Ch.digit 0, Ch.warn], .invalidFormat⟩] := by
  decide

/-- Claim C2 as amended: a second application of either validator to its own
output yields an identical document (so no marker is ever duplicated), but
the second run re-emits issues for values that are still invalid after
marker-stripping; its new-issues list is not empty in general. -/
theorem claim_c2_amended :
    (∀ gs : List AgeGroup,
      (procGroups fmtCourse (procGroups fmtCourse gs).1).1 =
        (procGroups fmtCourse gs).1) ∧
    (∀ gs : List AgeGroup,
      (procGroups progCourse (procGroups progCourse gs).1).1 =
        (procGroups progCourse gs).1) ∧
    (∀ (d d1 : StandardsDocument) (i1 : List Issue),
      processTimeStandardsFormat d = .ok (d1, i1) →
      ∃ i2, processTimeStandardsFormat d1 = .ok (d1, i2)) ∧
    (∀ (d d1 : StandardsDocument) (i1 : List Issue),
      processTimeStandardsProgression d = .ok (d1, i1) →
      ∃ i2, processTimeStandardsProgression d1 = .ok (d1, i2)) := by
  have hfmt : ∀ gs : List AgeGroup,
      (procGroups fmtCourse (procGroups fmtCourse gs).1).1 =
        (procGroups fmtCourse gs).1 :=
    procGroups_fst_idem fmtCourse (fun age g n c ct => fmtCourse_fst_idem age g n c ct)
  have hprog : ∀ gs : List AgeGroup,
      (procGroups progCourse (procGroups progCourse gs).1).1 =
        (procGroups progCourse gs).1 :=
    procGroups_fst_idem progCourse (fun age g n c ct => progCourse_fst_idem age g n c ct)
  refine ⟨hfmt, hprog, ?_, ?_⟩
  · intro d d1 i1 h
    obtain ⟨og⟩ := d
    cases og with
    | none => exact absurd h (by simp [processTimeStandardsFormat, processDoc])
    | some gs =>
      rw [processTimeStandardsFormat, processDoc] at h
      injection h with h2
      injection h2 with hd hi
      refine ⟨(procGroups fmtCourse (procGroups fmtCourse gs).1).2, ?_⟩
      rw [← hd, processTimeStandardsFormat, processDoc]
      simp [hfmt gs]
  · intro d d1 i1 h
    obtain ⟨og⟩ := d
    cases og with
    | none => exact absurd h (by simp [processTimeStandardsProgression, processDoc])
    | some gs =>
      rw [processTimeStandardsProgression, processDoc] at h
      injection h with h2
      injection h2 with hd hi
      refine ⟨(procGroups progCourse (procGroups progCourse gs).1).2, ?_⟩
      rw [← hd, processTimeStandardsProgression, processDoc]
      simp [hprog gs]

/-- Witness for claim C2 as amended: on a document with one empty age-group
list, one pass is already a fixed point. -/
theorem claim_c2_witness :
    ∃ i2, processTimeStandardsFormat ⟨some []⟩ = .ok (⟨some []⟩, i2) :=
  claim_c2_amended.2.2.1 ⟨some []⟩ ⟨some []⟩ [] rfl

/-! ### Claim C8: the marker invariant -/

/-- Invariant for a single string value: the warning marker is absent, or
occurs exactly once, as the last character (a suffix of the original
marker-free text). -/
def goodStr (s : Str) : Bool :=
  (warnCount s == 0) || ((warnCount s == 1) && (s.getLast? == some Ch.warn))

/-- The invariant lifted to an optional leaf. -/
def goodOpt : Option Str → Bool
  | none => true
  | some s => goodStr s

def goodCT (ct : CourseTimes) : Bool :=
  goodOpt ct.A && goodOpt ct.BPlus && goodOpt ct.B

def goodOptCT : Option CourseTimes → Bool
  | none => true
  | some ct => goodCT ct

def goodEvent (e : Event) : Bool :=
  goodOptCT e.SCY && goodOptCT e.SCM && goodOptCT e.LCM

def goodBucket : Option GenderBucket → Bool
  | none => true
  | some b =>
    match b.events with
    | none => true
    | some es => es.all goodEvent

def goodAgeGroup (ag : AgeGroup) : Bool :=
  match ag.genders with
  | none => true
  | some gs => goodBucket gs.Girls && goodBucket gs.Boys

/-- The invariant lifted to every leaf time value of the document. -/
def goodGroups (gs : List AgeGroup) : Bool := gs.all goodAgeGroup

theorem goodStr_append_warn (s : Str) (h : containsWarn s = false) :
    goodStr (s ++ [Ch.warn]) = true := by
  have hc : warnCount (s ++ [Ch.warn]) = 1 := by
    rw [warnCount, List.count_append,
      show List.count Ch.warn s = 0 from warnCount_eq_zero s h]
    rfl
  have hl : (s ++ [Ch.warn]).getLast? = some Ch.warn := by
    rw [List.getLast?_append_cons]
    rfl
  simp [goodStr, hc, hl]

theorem fmtStep_good (v : Option Str) (h : goodOpt v = true) :
    goodOpt (fmtStep v).1 = true := by
  match v with
  | none => rfl
  | some s =>
    by_cases hval : (validateTimeFormat (some s)).valid
    · simpa [fmtStep, hval] using h
    · by_cases hw : containsWarn s
      · simpa [fmtStep, hval, hw] using h
      · have hw2 : containsWarn s = false := by
          cases hx : containsWarn s
          · rfl
          · exact absurd hx hw
        simp [fmtStep, hval, hw2, goodOpt, goodStr_append_warn s hw2]

theorem appendWarnGuard_good (v : Option Str) (h : goodOpt v = true) :
    goodOpt (appendWarnGuard v) = true := by
  match v with
  | none => rfl
  | some s =>
    by_cases he : s.isEmpty
    · simpa [appendWarnGuard, he] using h
    · by_cases hw : containsWarn s
      · simpa [appendWarnGuard, he, hw] using h
      · have hw2 : containsWarn s = false := by
          cases hx : containsWarn s
          · rfl
          · exact absurd hx hw
        simp [appendWarnGuard, he, hw2, goodOpt, goodStr_append_warn s hw2]

theorem fmtCourse_good (age : Str) (g : Gender) (ev : Str) (c : Course)
    (ct : CourseTimes) (h : goodCT ct = true) :
    goodCT (fmtCourse age g ev c ct).1 = true := by
  obtain ⟨ta, tbp, tb⟩ := ct
  rw [goodCT] at h
  simp only [Bool.and_eq_true] at h
  simp [fmtCourse, goodCT, fmtStep_good _ h.1.1, fmtStep_good _ h.1.2,
    fmtStep_good _ h.2]

theorem progCourse_good (age : Str) (g : Gender) (ev : Str) (c : Course)
    (ct : CourseTimes) (h : goodCT ct = true) :
    goodCT (progCourse age g ev c ct).1 = true := by
  obtain ⟨ta, tbp, tb⟩ := ct
  rw [progCourse_fst_formula]
  rw [goodCT] at h
  simp only [Bool.and_eq_true] at h
  have h2 : goodOpt (if progFlagBPlus ta tbp tb then appendWarnGuard tbp else tbp) = true := by
    cases progFlagBPlus ta tbp tb
    · simpa using h.1.2
    · simpa using appendWarnGuard_good tbp h.1.2
  have h3 : goodOpt (if progFlagB ta tbp tb then appendWarnGuard tb else tb) = true := by
    cases progFlagB ta tbp tb
    · simpa using h.2
    · simpa using appendWarnGuard_good tb h.2
  simp [goodCT, h.1.1, h2, h3]

theorem procCourseSlot_good (f : CourseProc)
    (hf : ∀ age g n c ct, goodCT ct = true → goodCT (f age g n c ct).1 = true)
    (age : Str) (g : Gender) (n : Str) (c : Course) (oct : Option CourseTimes)
    (h : goodOptCT oct = true) :
    goodOptCT (procCourseSlot f age g n c oct).1 = true := by
  cases oct with
  | none => rfl
  | some ct =>
    simpa [procCourseSlot, goodOptCT] using hf age g n c ct (by simpa [goodOptCT] using h)

theorem procEvent_good (f : CourseProc)
    (hf : ∀ age g n c ct, goodCT ct = true → goodCT (f age g n c ct).1 = true)
    (age : Str) (g : Gender) (e : Event) (h : goodEvent e = true) :
    goodEvent (procEvent f age g e).1 = true := by
  obtain ⟨n, o1, o2, o3⟩ := e
  rw [goodEvent] at h
  simp only [Bool.and_eq_true] at h
  simp [procEvent, goodEvent, procCourseSlot_good f hf _ _ _ _ _ h.1.1,
    procCourseSlot_good f hf _ _ _ _ _ h.1.2, procCourseSlot_good f hf _ _ _ _ _ h.2]

theorem procEvents_good (f : CourseProc)
    (hf : ∀ age g n c ct, goodCT ct = true → goodCT (f age g n c ct).1 = true)
    (age : Str) (g : Gender) (es : List Event) (h : es.all goodEvent = true) :
    (procEvents f age g es).1.all goodEvent = true := by
  induction es with
  | nil => rfl
  | cons e es ih =>
    simp only [List.all_cons, Bool.and_eq_true] at h
    simp [procEvents, procEvent_good f hf age g e h.1, ih h.2]

theorem procBucket_good (f : CourseProc)
    (hf : ∀ age g n c ct, goodCT ct = true → goodCT (f age g n c ct).1 = true)
    (age : Str) (g : Gender) (ob : Option GenderBucket)
    (h : goodBucket ob = true) :
    goodBucket (procBucket f age g ob).1 = true := by
  cases ob with
  | none => rfl
  | some b =>
    cases hbe : b.events with
    | none => simp [procBucket, hbe, goodBucket]
    | some es =>
      rw [goodBucket, hbe] at h
      simp [procBucket, hbe, goodBucket, procEvents_good f hf age g es h]

theorem procAgeGroup_good (f : CourseProc)
    (hf : ∀ age g n c ct, goodCT ct = true → goodCT (f age g n c ct).1 = true)
    (ag : AgeGroup) (h : goodAgeGroup ag = true) :
    goodAgeGroup (procAgeGroup f ag).1 = true := by
  obtain ⟨age, og⟩ := ag
  cases og with
  | none => simpa [procAgeGroup] using h
  | some gs =>
    rw [goodAgeGroup] at h
    simp only [Bool.and_eq_true] at h
    simp [procAgeGroup, goodAgeGroup, procBucket_good f hf _ _ _ h.1,
      procBucket_good f hf _ _ _ h.2]

theorem procGroups_good (f : CourseProc)
    (hf : ∀ age g n c ct, goodCT ct = true → goodCT (f age g n c ct).1 = true)
    (gs : List AgeGroup) (h : goodGroups gs = true) :
    goodGroups (procGroups f gs).1 = true := by
  induction gs with
  | nil => rfl
  | cons ag ags ih =>
    rw [goodGroups, List.all_cons] at h
    simp only [Bool.and_eq_true] at h
    have := ih h.2
    rw [goodGroups] at this ⊢
    simp [procGroups, procAgeGroup_good f hf ag h.1, this]

/-- One validation pass over the age groups. -/
inductive Pass where
  | format : Pass
  | progression : Pass
deriving DecidableEq, Repr

def runPass : Pass → List AgeGroup → List AgeGroup × List Issue
  | .format, gs => procGroups fmtCourse gs
  | .progression, gs => procGroups progCourse gs

/-- Apply a sequence of validation passes, keeping the mutated document. -/
def applyPasses : List Pass → List AgeGroup → List AgeGroup
  | [], gs => gs
  | p :: ps, gs => applyPasses ps (runPass p gs).1

/-- Claim C8: if every leaf of the document satisfies the marker invariant
(marker absent, or present exactly once as a suffix of the marker-free
text), then after any sequence of format and progression passes every leaf
still satisfies it: the marker appears at most once and only as a suffix. -/
theorem claim_c8_marker_invariant (ps : List Pass) (gs : List AgeGroup)
    (h : goodGroups gs = true) :
    goodGroups (applyPasses ps gs) = true := by
  induction ps generalizing gs with
  | nil => exact h
  | cons p ps ih =>
    cases p with
    | format =>
      exact ih _ (procGroups_good fmtCourse
        (fun age g n c ct hct => fmtCourse_good age g n c ct hct) gs h)
    | progression =>
      exact ih _ (procGroups_good progCourse
        (fun age g n c ct hct => progCourse_good age g n c ct hct) gs h)

/-- Witness for claim C8: a two-pass run over a concrete document with one
invalid time keeps the invariant. -/
theorem claim_c8_witness :
    goodGroups (applyPasses [.format, .progression]
      [⟨[Ch.digit 1, Ch.digit 0], some ⟨some ⟨some
        [⟨[Ch.other 70], some ⟨some [Ch.digit 1, Ch.colon, Ch.digit 9, Ch.digit 6,
          Ch.dot, Ch.digit 0, Ch.digit 0],
          some [Ch.digit 3, Ch.digit 1, Ch.dot, Ch.digit 0, Ch.digit 0],
          some [Ch.digit 3, Ch.digit 0, Ch.dot, Ch.digit 0, Ch.digit 0]⟩,
          none, none⟩]⟩, none⟩⟩]) = true :=
  claim_c8_marker_invariant [.format, .progression] _ (by decide)

/-! ### Claim C6: the renderer sort order -/

theorem chCode_inj (a b : Ch) (h : chCode a = chCode b) : a = b := by
  cases a <;> cases b <;> simp only [chCode] at h <;> first
    | rfl
    | omega
    | (rename_i d1 d2
       have : d1 = d2 := by omega
       rw [this])

theorem lexCompare_self (s : Str) : lexCompare s s = 0 := by
  induction s with
  | nil => rfl
  | cons c cs ih => simp [lexCompare, ih]

theorem lexCompare_eq_zero_iff (s t : Str) : lexCompare s t = 0 ↔ s = t := by
  induction s generalizing t with
  | nil =>
    cases t with
    | nil => simp [lexCompare]
    | cons c cs => simp [lexCompare]
  | cons c cs ih =>
    cases t with
    | nil => simp [lexCompare]
    | cons d ds =>
      by_cases h1 : chCode c < chCode d
      · rw [lexCompare, if_pos h1]
        constructor
        · intro h
          exact absurd h (by decide)
        · intro he
          injection he with he1 he2
          subst he1
          exact absurd h1 (lt_irrefl _)
      · by_cases h2 : chCode d < chCode c
        · rw [lexCompare, if_neg h1, if_pos h2]
          constructor
          · intro h
            exact absurd h (by decide)
          · intro he
            injection he with he1 he2
            subst he1
            exact absurd h2 (lt_irrefl _)
        · have hcd : c = d := chCode_inj c d (by omega)
          subst hcd
          rw [lexCompare, if_neg h1, if_neg h2]
          rw [ih ds]
          simp

theorem lexCompare_lt_trans (s t u : Str)
    (h1 : lexCompare s t < 0) (h2 : lexCompare t u < 0) : lexCompare s u < 0 := by
  induction s generalizing t u with
  | nil =>
    cases t with
    | nil => exact absurd h1 (by simp [lexCompare])
    | cons d ds =>
      cases u with
      | nil => exact absurd h2 (by simp [lexCompare])
      | cons e es => simp [lexCompare]
  | cons c cs ih =>
    cases t with
    | nil => exact absurd h1 (by simp [lexCompare])
    | cons d ds =>
      cases u with
      | nil => exact absurd h2 (by simp [lexCompare])
      | cons e es =>
        rw [lexCompare] at h1 h2 ⊢
        by_cases hcd : chCode c < chCode d
        · by_cases hde : chCode d < chCode e
          · rw [if_pos (by omega)]
            omega
          · by_cases hed : chCode e < chCode d
            · rw [if_neg hde, if_pos hed] at h2
              omega
            · have : d = e := chCode_inj d e (by omega)
              subst this
              rw [if_pos hcd]
              omega
        · by_cases hdc : chCode d < chCode c
          · rw [if_neg hcd, if_pos hdc] at h1
            omega
          · have : c = d := chCode_inj c d (by omega)
            subst this
            rw [if_neg hcd, if_neg hdc] at h1
            by_cases hde : chCode c < chCode e
            · rw [if_pos hde]
              omega
            · by_cases hed : chCode e < chCode c
              · rw [if_neg hde, if_pos hed] at h2
                omega
              · have : c = e := chCode_inj c e (by omega)
                subst this
                rw [if_neg hde, if_neg (by omega)] at h2 ⊢
                exact ih ds es h1 h2

theorem lexCompare_swap (s t : Str) : lexCompare t s = -lexCompare s t := by
  induction s generalizing t with
  | nil =>
    cases t with
    | nil => rfl
    | cons d ds => rfl
  | cons c cs ih =>
    cases t with
    | nil => rfl
    | cons d ds =>
      rw [lexCompare, lexCompare]
      by_cases h1 : chCode c < chCode d
      · rw [if_neg (by omega), if_pos h1, if_pos h1]
        decide
      · by_cases h2 : chCode d < chCode c
        · rw [if_pos h2, if_neg h1, if_pos h2]
        · rw [if_neg h2, if_neg h1, if_neg h1, if_neg h2, ih ds]

/-- Claim-side age sort value: the end integer for a hyphenated range, the
first integer otherwise (999 when no integer is found, as in the code). -/
def claimSortValue (age : Str) : Nat :=
  if isAgeRange age then getAgeEndValue age else getAgeNumericValue age

/-- Claim-side range tie-break rank: single ages (0) before ranges (1). -/
def claimRangeRank (age : Str) : Nat :=
  if isAgeRange age then 1 else 0

/-- Claim-side gender rank: Girls before Boys. -/
def claimGenderRank : Gender → Nat
  | .Girls => 0
  | .Boys => 1

/-- Claim-side course rank: the fixed order SCY, SCM, LCM. -/
def claimCourseRank : Course → Nat
  | .SCY => 0
  | .SCM => 1
  | .LCM => 2

/-- Claim-side tier rank: the fixed order A, B+, B. -/
def claimTierRank : Standard → Nat
  | .A => 0
  | .BPlus => 1
  | .B => 2

/-- Extend an order by a numeric key compared first. -/
def lexNatExt (f : Issue → Nat) (r : Issue → Issue → Prop) (x y : Issue) : Prop :=
  f x < f y ∨ (f x = f y ∧ r x y)

/-- Extend an order by a string key compared lexicographically first. -/
def lexStrExt (f : Issue → Str) (r : Issue → Issue → Prop) (x y : Issue) : Prop :=
  lexCompare (f x) (f y) < 0 ∨ (f x = f y ∧ r x y)

/-- The total preorder described by claim C6: age sort value ascending, then
single ages before ranges, then Girls before Boys, then event name
lexically ascending, then course in order SCY, SCM, LCM, then tier in order
A, B+, B. -/
def claimIssueLE : Issue → Issue → Prop :=
  lexNatExt (fun i => claimSortValue i.age)
    (lexNatExt (fun i => claimRangeRank i.age)
      (lexNatExt (fun i => claimGenderRank i.gender)
        (lexStrExt (fun i => i.event)
          (lexNatExt (fun i => claimCourseRank i.course)
            (fun x y => claimTierRank x.standard ≤ claimTierRank y.standard)))))

theorem lexNatExt_trans (f : Issue → Nat) (r : Issue → Issue → Prop)
    (hr : ∀ a b c, r a b → r b c → r a c) :
    ∀ a b c, lexNatExt f r a b → lexNatExt f r b c → lexNatExt f r a c := by
  intro a b c hab hbc
  rcases hab with h | ⟨he, hrr⟩ <;> rcases hbc with h2 | ⟨he2, hrr2⟩
  · exact Or.inl (lt_trans h h2)
  · exact Or.inl (he2 ▸ h)
  · exact Or.inl (he ▸ h2)
  · exact Or.inr ⟨he.trans he2, hr a b c hrr hrr2⟩

theorem lexNatExt_total (f : Issue → Nat) (r : Issue → Issue → Prop)
    (hr : ∀ a b, r a b ∨ r b a) :
    ∀ a b, lexNatExt f r a b ∨ lexNatExt f r b a := by
  intro a b
  rcases Nat.lt_trichotomy (f a) (f b) with h | h | h
  · exact Or.inl (Or.inl h)
  · rcases hr a b with hrr | hrr
    · exact Or.inl (Or.inr ⟨h, hrr⟩)
    · exact Or.inr (Or.inr ⟨h.symm, hrr⟩)
  · exact Or.inr (Or.inl h)

theorem lexStrExt_trans (f : Issue → Str) (r : Issue → Issue → Prop)
    (hr : ∀ a b c, r a b → r b c → r a c) :
    ∀ a b c, lexStrExt f r a b → lexStrExt f r b c → lexStrExt f r a c := by
  intro a b c hab hbc
  rcases hab with h | ⟨he, hrr⟩ <;> rcases hbc with h2 | ⟨he2, hrr2⟩
  · exact Or.inl (lexCompare_lt_trans _ _ _ h h2)
  · exact Or.inl (he2 ▸ h)
  · exact Or.inl (he ▸ h2)
  · exact Or.inr ⟨he.trans he2, hr a b c hrr hrr2⟩

theorem lexStrExt_total (f : Issue → Str) (r : Issue → Issue → Prop)
    (hr : ∀ a b, r a b ∨ r b a) :
    ∀ a b, lexStrExt f r a b ∨ lexStrExt f r b a := by
  intro a b
  rcases lt_trichotomy (lexCompare (f a) (f b)) 0 with h | h | h
  · exact Or.inl (Or.inl h)
  · have he : f a = f b := (lexCompare_eq_zero_iff _ _).1 h
    rcases hr a b with hrr | hrr
    · exact Or.inl (Or.inr ⟨he, hrr⟩)
    · exact Or.inr (Or.inr ⟨he.symm, hrr⟩)
  · refine Or.inr (Or.inl ?_)
    rw [lexCompare_swap]
    omega

theorem claimIssueLE_trans :
    ∀ a b c, claimIssueLE a b → claimIssueLE b c → claimIssueLE a c := by
  refine lexNatExt_trans _ _ (lexNatExt_trans _ _ (lexNatExt_trans _ _
    (lexStrExt_trans _ _ (lexNatExt_trans _ _ ?_))))
  intro a b c h1 h2
  omega

theorem claimIssueLE_total :
    ∀ a b, claimIssueLE a b ∨ claimIssueLE b a := by
  refine lexNatExt_total _ _ (lexNatExt_total _ _ (lexNatExt_total _ _
    (lexStrExt_total _ _ (lexNatExt_total _ _ ?_))))
  intro a b
  omega

theorem getCourseSortOrder_eq_rank (c : Course) :
    getCourseSortOrder c = claimCourseRank c := by
  cases c <;> rfl

theorem getStandardSortOrder_eq_rank (s : Standard) :
    getStandardSortOrder s = claimTierRank s := by
  cases s <;> rfl

theorem claimRangeRank_congr (x y : Str) (h : isAgeRange x = isAgeRange y) :
    claimRangeRank x = claimRangeRank y := by
  rw [claimRangeRank, claimRangeRank, h]

theorem issueLE_iff_claim (x y : Issue) : issueLE x y ↔ claimIssueLE x y := by
  have ex : (if isAgeRange x.age then (getAgeEndValue x.age : Int)
      else (getAgeNumericValue x.age : Int)) = (claimSortValue x.age : Int) := by
    rw [claimSortValue]
    split <;> rfl
  have ey : (if isAgeRange y.age then (getAgeEndValue y.age : Int)
      else (getAgeNumericValue y.age : Int)) = (claimSortValue y.age : Int) := by
    rw [claimSortValue]
    split <;> rfl
  simp only [issueLE, issueCmp, ex, ey, getCourseSortOrder_eq_rank,
    getStandardSortOrder_eq_rank]
  by_cases h1 : claimSortValue x.age = claimSortValue y.age
  · rw [if_neg (by omega)]
    by_cases h2 : isAgeRange x.age = isAgeRange y.age
    · rw [if_neg (by simp [h2])]
      have h2r := claimRangeRank_congr x.age y.age h2
      by_cases h3 : x.gender = y.gender
      · rw [if_neg (by simp [h3])]
        have h3r : claimGenderRank x.gender = claimGenderRank y.gender := by
          rw [h3]
        by_cases h4 : x.event = y.event
        · rw [if_neg (by simp [h4])]
          by_cases h5 : claimCourseRank x.course = claimCourseRank y.course
          · rw [if_neg (by omega)]
            simp [claimIssueLE, lexNatExt, lexStrExt, h1, h2r, h3r, h4, h5,
              lexCompare_self]
          · rw [if_pos (by omega)]
            simp [claimIssueLE, lexNatExt, lexStrExt, h1, h2r, h3r, h4,
              lexCompare_self]
            omega
        · rw [if_pos h4]
          simp only [claimIssueLE, lexNatExt, lexStrExt, h1, h2r, h3r,
            lt_self_iff_false, false_or, true_and, eq_self_iff_true]
          constructor
          · intro h
            rcases lt_or_eq_of_le h with hlt | heq
            · exact Or.inl hlt
            · exact absurd ((lexCompare_eq_zero_iff _ _).1 heq) h4
          · rintro (hlt | ⟨he, -⟩)
            · omega
            · exact absurd he h4
      · rw [if_pos h3]
        cases hgx : x.gender <;> cases hgy : y.gender
        · exact absurd (hgx.trans hgy.symm) h3
        · rw [if_pos rfl]
          simp [claimIssueLE, lexNatExt, lexStrExt, h1, h2r, hgx, hgy,
            claimGenderRank]
        · rw [if_neg (by simp [hgx])]
          simp [claimIssueLE, lexNatExt, lexStrExt, h1, h2r, hgx, hgy,
            claimGenderRank]
        · exact absurd (hgx.trans hgy.symm) h3
    · rw [if_pos h2]
      cases hrx : isAgeRange x.age <;> cases hry : isAgeRange y.age
      · exact absurd (hrx.trans hry.symm) h2
      · rw [if_neg (by simp [hrx])]
        simp [claimIssueLE, lexNatExt, lexStrExt, h1, claimRangeRank, hrx, hry]
      · rw [if_pos rfl]
        simp [claimIssueLE, lexNatExt, lexStrExt, h1, claimRangeRank, hrx, hry]
      · exact absurd (hrx.trans hry.symm) h2
  · rw [if_pos (by omega)]
    simp only [claimIssueLE, lexNatExt, lexStrExt]
    constructor
    · intro h
      exact Or.inl (by omega)
    · rintro (hlt | ⟨he, -⟩)
      · omega
      · exact absurd he h1

/-- Claim C6: the renderer orders any issue list by age sort value ascending
(range labels sorting at their end integer, other labels at their first
integer), then single ages before ranges at equal sort values, then Girls
before Boys, then event name lexically ascending, then course in the fixed
order SCY, SCM, LCM, then tier in the fixed order A, B+, B; the output is a
permutation of the input sorted by that order. -/
theorem claim_c6_sort_order (l : List Issue) :
    (sortIssues l).Perm l ∧ (sortIssues l).Pairwise claimIssueLE := by
  haveI htot : IsTotal Issue issueLE := ⟨fun a b => by
    rcases claimIssueLE_total a b with h | h
    · exact Or.inl ((issueLE_iff_claim a b).2 h)
    · exact Or.inr ((issueLE_iff_claim b a).2 h)⟩
  haveI htrans : IsTrans Issue issueLE := ⟨fun a b c hab hbc =>
    (issueLE_iff_claim a c).2 (claimIssueLE_trans a b c
      ((issueLE_iff_claim a b).1 hab) ((issueLE_iff_claim b c).1 hbc))⟩
  refine ⟨List.perm_insertionSort issueLE l, ?_⟩
  have hs := List.sorted_insertionSort issueLE l
  exact List.Pairwise.imp (fun hab => (issueLE_iff_claim _ _).1 hab) hs
